import Mathlib

/-!
Verification development for the nestjs-gate authorization engine.

The definitions below are a shallow embedding of the two core source files:
the `GateService` class (ability registry, before/after hook pipeline,
policy resolution) and the `GateResponse` result value.  JavaScript's
`null` and `undefined` are modelled as distinct constructors, machine
booleans as `Bool`, the mutable `args` array as explicitly threaded state
(the engine mutates it via `Array.prototype.shift`), and the thrown
`HttpException` / `ForbiddenException` of `GateResponse.authorize` as an
`Except` value.  Async/await is erased: the pipeline awaits every stage
fully before the next, so the sequential semantics is the direct one.
-/

/-- The ambient principal as read from the context carrier: a user id, or
nothing when no scope is active / the scope carries no user. -/
abbrev User := Option Nat

/-- A JavaScript class (constructor function), identified by `cid`, carrying
the ids of its strict ancestors in prototype-chain order.  Two classes are
the same object exactly when their `cid`s agree. -/
structure JSClass where
  cid : Nat
  ancestors : List Nat
deriving DecidableEq

/-- The JavaScript values that can appear in a check's `args` array:
class references, instances, primitives, `null` and `undefined`. -/
inductive JSVal where
  | vclass (c : JSClass)
  | vobj (c : JSClass) (payload : Nat)
  | vstr (s : String)
  | vnum (n : Nat)
  | vbool (b : Bool)
  | vnull
  | vundef
deriving DecidableEq

/-- JavaScript truthiness of a value (used by `args[0] &&` and by the
ternary in `inspect`). -/
def JSVal.truthy : JSVal → Bool
  | .vclass _ => true
  | .vobj _ _ => true
  | .vstr s => !(s == "")
  | .vnum n => !(n == 0)
  | .vbool b => b
  | .vnull => false
  | .vundef => false

/-- The `GateResponse` result value: `allowed`, optional `message`, optional
application `code`, optional HTTP `status` (set by `withStatus`). -/
structure GateResponse where
  allowed : Bool
  message : Option String
  code : Option String
  status : Option Nat
deriving DecidableEq

/-- `GateResponse.denied` is the negation of `allowed`. -/
def GateResponse.denied (r : GateResponse) : Bool := !r.allowed

/-- `GateResponse.allow(message?, code?)` factory. -/
def GateResponse.allow (message : Option String) (code : Option String) : GateResponse :=
  ⟨true, message, code, Option.none⟩

/-- `GateResponse.deny(message?, code?)` factory. -/
def GateResponse.deny (message : Option String) (code : Option String) : GateResponse :=
  ⟨false, message, code, Option.none⟩

/-- `withStatus(status)`: sets the HTTP status code, returns the instance. -/
def GateResponse.withStatus (r : GateResponse) (status : Option Nat) : GateResponse :=
  ⟨r.allowed, r.message, r.code, status⟩

/-- `asNotFound()`: sets the HTTP status code to 404. -/
def GateResponse.asNotFound (r : GateResponse) : GateResponse :=
  r.withStatus (Option.some 404)

/-- `denyWithStatus(status, message?, code?)` factory. -/
def GateResponse.denyWithStatus (status : Nat) (message : Option String) (code : Option String) : GateResponse :=
  (GateResponse.deny message code).withStatus (Option.some status)

/-- The denial signal raised by `GateResponse.authorize`: either a
`HttpException(this, this._status)` carrying the explicitly set status, or a
`ForbiddenException(this)` (HTTP 403). -/
inductive DenialSignal where
  | httpException (response : GateResponse) (status : Nat)
  | forbiddenException (response : GateResponse)
deriving DecidableEq

/-- The Result Value carried by a denial signal. -/
def DenialSignal.response : DenialSignal → GateResponse
  | .httpException r _ => r
  | .forbiddenException r => r

/-- The HTTP status a denial signal carries to the host
(`ForbiddenException` is HTTP 403). -/
def DenialSignal.statusCode : DenialSignal → Nat
  | .httpException _ s => s
  | .forbiddenException _ => 403

/-- `GateResponse.authorize()`: when denied, throws
`this._status ? new HttpException(this, this._status) : new ForbiddenException(this)`
(note JavaScript number truthiness: a status of 0 is falsy); otherwise
returns the response itself. -/
def GateResponse.authorize (r : GateResponse) : Except DenialSignal GateResponse :=
  if r.denied then
    match r.status with
    | Option.some s =>
        if s != 0 then Except.error (.httpException r s)
        else Except.error (.forbiddenException r)
    | Option.none => Except.error (.forbiddenException r)
  else Except.ok r

/-- The raw outcome type `boolean | null | GateResponse | undefined` that
abilities, hooks and policy methods produce. -/
inductive RawResult where
  | rbool (b : Bool)
  | rnull
  | rundef
  | rresp (resp : GateResponse)
deriving DecidableEq

/-- Nullish test (`x === null || x === undefined`), the test behind `??`,
`??=` and the explicit `result !== null && result !== undefined` check of
the before-hook loop. -/
def RawResult.isNullish : RawResult → Bool
  | .rnull => true
  | .rundef => true
  | .rbool _ => false
  | .rresp _ => false

/-- JavaScript truthiness of a raw outcome (the ternary in `inspect`;
an object such as a `GateResponse` is always truthy). -/
def RawResult.truthy : RawResult → Bool
  | .rbool b => b
  | .rnull => false
  | .rundef => false
  | .rresp _ => true

/-- `AbilityCallback`: `(user, ...args) => PolicyResult`. -/
abbrev AbilityCallback := User → List JSVal → RawResult

/-- `BeforeCallback`: `(user, ability, args) => PolicyResult`
(receives the args array itself). -/
abbrev BeforeCallback := User → String → List JSVal → RawResult

/-- `AfterCallback`: `(user, ability, result, args) => PolicyResult`. -/
abbrev AfterCallback := User → String → RawResult → List JSVal → RawResult

/-- A policy ability method: `(user, ...args) => PolicyResult`. -/
abbrev PolicyMethod := User → List JSVal → RawResult

/-- A policy `before` method: `(user, ability, ...args) => PolicyResult`. -/
abbrev PolicyBeforeMethod := User → String → List JSVal → RawResult

/-- A policy instance (`PolicyMap`): ability methods keyed by name, plus
the optional special `before` method. -/
structure PolicyMap where
  methods : List (String × PolicyMethod)
  before : Option PolicyBeforeMethod

/-- The `GateService` state: the discovered policy registry (a `Map` from
class to policy instance, modelled as the insertion-ordered association
list), the ability `Map`, and the two ordered hook lists. -/
structure GateService where
  policies : List (JSClass × PolicyMap)
  abilities : List (String × AbilityCallback)
  beforeCallbacks : List BeforeCallback
  afterCallbacks : List AfterCallback

/-- `Map.set` semantics for the ability map: an existing key is overwritten
in place, a new key is appended. -/
def setAssoc (key : String) (v : AbilityCallback) :
    List (String × AbilityCallback) → List (String × AbilityCallback)
  | [] => [(key, v)]
  | (k, w) :: rest =>
      if k == key then (k, v) :: rest else (k, w) :: setAssoc key v rest

/-- `define(ability, callback)`: registers a new ability (last writer wins). -/
def GateService.define (g : GateService) (ability : String) (cb : AbilityCallback) : GateService :=
  ⟨g.policies, setAssoc ability cb g.abilities, g.beforeCallbacks, g.afterCallbacks⟩

/-- `before(callback)`: appends to the before-hook list. -/
def GateService.before (g : GateService) (cb : BeforeCallback) : GateService :=
  ⟨g.policies, g.abilities, g.beforeCallbacks ++ [cb], g.afterCallbacks⟩

/-- `after(callback)`: appends to the after-hook list. -/
def GateService.after (g : GateService) (cb : AfterCallback) : GateService :=
  ⟨g.policies, g.abilities, g.beforeCallbacks, g.afterCallbacks ++ [cb]⟩

/-- `has(abilities)`: every named ability has a registered global callback
(policies are not consulted). -/
def GateService.has (g : GateService) (abilities : List String) : Bool :=
  abilities.all (fun a => (List.lookup a g.abilities).isSome)

/-- The delimiter class of the split regex `/[-_\s]+/` (`\s` also matches
further Unicode space code points; the ASCII ones and NBSP suffice for the
names this engine meets). -/
def isDelimChar (c : Char) : Bool :=
  c == '-' || c == '_' || c == ' ' || c == '\t' || c == '\n' || c == '\r' ||
  c == '\x0b' || c == '\x0c' || c == '\u00A0'

/-- `String.split(/[-_\s]+/)` on a character list: maximal delimiter runs
separate the tokens, and a leading/trailing run contributes a leading/
trailing empty token, exactly as the JavaScript regex split does. -/
def splitDelimRuns : List Char → List (List Char)
  | [] => [[]]
  | c :: rest =>
      if isDelimChar c then
        match rest with
        | d :: _ =>
            if isDelimChar d then splitDelimRuns rest
            else [] :: splitDelimRuns rest
        | [] => [] :: splitDelimRuns rest
      else
        match splitDelimRuns rest with
        | [] => [[c]]
        | w :: ws => (c :: w) :: ws

/-- `word.charAt(0).toUpperCase() + word.slice(1)` (empty word unchanged). -/
def capitalizeWord (w : String) : String :=
  match w.data with
  | [] => w
  | c :: rest => String.mk (c.toUpper :: rest)

/-- `formatAbilityToMethod`: a name containing a hyphen is lower-cased,
split on runs of `[-_\s]`, and rejoined camel-style (first word unchanged,
later words capitalized); a name without a hyphen is returned verbatim. -/
def formatAbilityToMethod (ability : String) : String :=
  if ability.data.contains '-' then
    String.join
      ((splitDelimRuns (ability.data.map Char.toLower)).mapIdx
        (fun i w => if i == 0 then String.mk w else capitalizeWord (String.mk w)))
  else ability

/-- The constructor used as the policy-map key for a subject:
`typeof obj === 'object' ? obj.constructor : obj`.  Primitives yield no
class (their policy lookup can only fail). -/
def subjectClass : JSVal → Option JSClass
  | .vobj c _ => Option.some c
  | .vclass c => Option.some c
  | _ => Option.none

/-- `proto instanceof target` for the ancestor scan of `getPolicyFor`:
for an instance the proto is the object itself (true for its own class and
every ancestor); for a class `C` the proto is `C.prototype`, an instance of
the strict ancestors only; any other proto (`undefined`) matches nothing. -/
def protoInstanceOf : JSVal → JSClass → Bool
  | .vobj c _, target => c.cid == target.cid || c.ancestors.contains target.cid
  | .vclass c, target => c.ancestors.contains target.cid
  | _, _ => false

/-- `getPolicyFor(obj)`: exact constructor match in the policy map first;
otherwise the first registered pair whose class the subject's prototype is
an instance of; otherwise `false` (here `Option.none`). -/
def getPolicyFor (reg : List (JSClass × PolicyMap)) (obj : JSVal) : Option PolicyMap :=
  match subjectClass obj with
  | Option.none => Option.none
  | Option.some target =>
      match reg.find? (fun e => e.1.cid == target.cid) with
      | Option.some e => Option.some e.2
      | Option.none =>
          match reg.find? (fun e => protoInstanceOf obj e.1) with
          | Option.some e => Option.some e.2
          | Option.none => Option.none

/-- `resolvePolicyCallback` guard: the derived method name, provided the
policy exposes it as a callable; otherwise `false` (here `Option.none`). -/
def resolvePolicyCallback (ability : String) (policy : PolicyMap) : Option String :=
  let method := formatAbilityToMethod ability
  if (List.lookup method policy.methods).isSome then Option.some method
  else Option.none

/-- `callPolicyBefore`: runs the policy's `before` when it is a function,
otherwise returns `undefined`. -/
def callPolicyBefore (policy : PolicyMap) (user : User) (ability : String)
    (args : List JSVal) : RawResult :=
  match policy.before with
  | Option.none => .rundef
  | Option.some f => f user ability args

/-- The in-place `args.shift()` of `callPolicyMethod`, performed exactly
when `typeof args[0] === 'function'`, i.e. when the head is a class. -/
def shiftClassArg : List JSVal → List JSVal
  | .vclass _ :: rest => rest
  | args => args

/-- `callPolicyMethod`: when `args[0]` is a function (a class reference)
it is shifted off the caller's array in place, then the policy method runs
on the remaining arguments.  The returned list is the array as the caller
now sees it.  (The missing-method branch is unreachable: invocation is
guarded by `resolvePolicyCallback`.) -/
def callPolicyMethod (policy : PolicyMap) (method : String) (user : User)
    (args : List JSVal) : RawResult × List JSVal :=
  let args1 := shiftClassArg args
  match List.lookup method policy.methods with
  | Option.some f => (f user args1, args1)
  | Option.none => (.rundef, args1)

/-- The closure built by `resolvePolicyCallback`: policy `before` first,
its non-nullish result final (`??`), otherwise the policy method. -/
def invokePolicyCallback (policy : PolicyMap) (method : String) (user : User)
    (ability : String) (args : List JSVal) : RawResult × List JSVal :=
  let pre := callPolicyBefore policy user ability args
  if pre.isNullish then callPolicyMethod policy method user args
  else (pre, args)

/-- The policy arm of `resolveAuthCallback`:
`args[0] && (policy = getPolicyFor(args[0])) && (callback = resolvePolicyCallback(...))`. -/
def policyResolution (g : GateService) (ability : String) (args : List JSVal) :
    Option (PolicyMap × String) :=
  match args with
  | a0 :: _ =>
      if a0.truthy then
        match getPolicyFor g.policies a0 with
        | Option.some policy =>
            (resolvePolicyCallback ability policy).map (fun m => (policy, m))
        | Option.none => Option.none
      else Option.none
  | [] => Option.none

/-- The callable `resolveAuthCallback` produces, defunctionalized: the
policy closure, the registered global ability callback, or the default
`() => null`. -/
inductive ResolvedCallback where
  | policyCb (policy : PolicyMap) (method : String)
  | abilityCb (f : AbilityCallback)
  | defaultCb

/-- `resolveAuthCallback(user, ability, args)`. -/
def resolveAuthCallback (g : GateService) (ability : String) (args : List JSVal) :
    ResolvedCallback :=
  match policyResolution g ability args with
  | Option.some (policy, method) => .policyCb policy method
  | Option.none =>
      match List.lookup ability g.abilities with
      | Option.some f => .abilityCb f
      | Option.none => .defaultCb

/-- `callAuthCallback`: resolve, then `callback(user, ...args)`; the
returned list is the args array after the call (a policy-class call
shifts it). -/
def callAuthCallback (g : GateService) (user : User) (ability : String)
    (args : List JSVal) : RawResult × List JSVal :=
  match resolveAuthCallback g ability args with
  | .policyCb policy method => invokePolicyCallback policy method user ability args
  | .abilityCb f => (f user args, args)
  | .defaultCb => (.rnull, args)

/-- `callBeforeCallbacks`: each before-hook in order; the first result that
is neither null nor undefined is returned at once, else `null`. -/
def callBeforeCallbacks (cbs : List BeforeCallback) (user : User)
    (ability : String) (args : List JSVal) : RawResult :=
  match cbs with
  | [] => .rnull
  | c :: rest =>
      let r := c user ability args
      if r.isNullish then callBeforeCallbacks rest user ability args else r

/-- `callAfterCallbacks`: `result ??= await after(user, ability, result, args)`
for each after-hook in order — a hook's body only runs while the
accumulated result is still nullish. -/
def callAfterCallbacks (cbs : List AfterCallback) (user : User)
    (ability : String) (args : List JSVal) (result : RawResult) : RawResult :=
  match cbs with
  | [] => result
  | c :: rest =>
      let result1 := if result.isNullish then c user ability result args else result
      callAfterCallbacks rest user ability args result1

/-- `raw(ability, args)`: before-hooks `??` auth callback, then the
after-hook pass; paired with the args array as the caller sees it after
the call. -/
def GateService.raw (g : GateService) (user : User) (ability : String)
    (args : List JSVal) : RawResult × List JSVal :=
  let pre := callBeforeCallbacks g.beforeCallbacks user ability args
  let step :=
    if pre.isNullish then callAuthCallback g user ability args else (pre, args)
  (callAfterCallbacks g.afterCallbacks user ability step.2 step.1, step.2)

/-- `inspect(ability, args)`: a `GateResponse` outcome is returned as is,
anything else is coerced through truthiness to `allow()` / `deny()`. -/
def GateService.inspect (g : GateService) (user : User) (ability : String)
    (args : List JSVal) : GateResponse × List JSVal :=
  let res := g.raw user ability args
  match res.1 with
  | .rresp resp => (resp, res.2)
  | r =>
      (if r.truthy then GateResponse.allow Option.none Option.none
       else GateResponse.deny Option.none Option.none, res.2)

/-- `check(abilities, args)`: every ability must be allowed, short-circuit
on the first denial; the args array is threaded through (policy-class
calls shorten it in place). -/
def GateService.check (g : GateService) (user : User) :
    List String → List JSVal → Bool × List JSVal
  | [], args => (true, args)
  | a :: rest, args =>
      let res := g.inspect user a args
      if res.1.allowed then g.check user rest res.2 else (false, res.2)

/-- `any(abilities, args)`: at least one ability allowed, short-circuit on
the first allow. -/
def GateService.any (g : GateService) (user : User) :
    List String → List JSVal → Bool × List JSVal
  | [], args => (false, args)
  | a :: rest, args =>
      let res := g.inspect user a args
      if res.1.allowed then (true, res.2) else g.any user rest res.2

/-- `allows(ability, args)` = `check(ability, args)`. -/
def GateService.allows (g : GateService) (user : User) (abilities : List String)
    (args : List JSVal) : Bool × List JSVal :=
  g.check user abilities args

/-- `denies(ability, args)` = `!allows(ability, args)`. -/
def GateService.denies (g : GateService) (user : User) (abilities : List String)
    (args : List JSVal) : Bool × List JSVal :=
  let res := g.allows user abilities args
  (!res.1, res.2)

/-- `none(abilities, args)` = `!any(abilities, args)`. -/
def GateService.none (g : GateService) (user : User) (abilities : List String)
    (args : List JSVal) : Bool × List JSVal :=
  let res := g.any user abilities args
  (!res.1, res.2)

/-- `authorize(ability, args)` = `inspect(ability, args).authorize()`. -/
def GateService.authorize (g : GateService) (user : User) (ability : String)
    (args : List JSVal) : Except DenialSignal GateResponse × List JSVal :=
  let res := g.inspect user ability args
  (res.1.authorize, res.2)

/-! ## Helper lemmas about the hook pipeline -/

theorem callAfterCallbacks_of_not_nullish (cbs : List AfterCallback) (user : User)
    (ability : String) (args : List JSVal) (r : RawResult) (h : r.isNullish = false) :
    callAfterCallbacks cbs user ability args r = r := by
  induction cbs with
  | nil => rfl
  | cons c rest ih => simp [callAfterCallbacks, h, ih]

theorem callBeforeCallbacks_append_nullish (bs1 rest : List BeforeCallback)
    (user : User) (ability : String) (args : List JSVal)
    (h : ∀ hb ∈ bs1, (hb user ability args).isNullish = true) :
    callBeforeCallbacks (bs1 ++ rest) user ability args
      = callBeforeCallbacks rest user ability args := by
  induction bs1 with
  | nil => rfl
  | cons c bs ih =>
      have hc := h c (List.mem_cons_self c bs)
      simp only [List.cons_append, callBeforeCallbacks, hc, if_true]
      exact ih (fun hb hm => h hb (List.mem_cons_of_mem c hm))

theorem callAfterCallbacks_append_coalesce
    (a : AfterCallback) (user : User) (ability : String) (args : List JSVal) (v : RawResult)
    (h2 : ∀ r : RawResult, r.isNullish = true → a user ability r args = v)
    (h3 : v.isNullish = false) :
    ∀ (as1 : List AfterCallback),
      (∀ hb ∈ as1, ∀ r : RawResult, r.isNullish = true →
        (hb user ability r args).isNullish = true) →
      ∀ (r0 : RawResult), r0.isNullish = true → ∀ (as2 : List AfterCallback),
        callAfterCallbacks (as1 ++ a :: as2) user ability args r0 = v := by
  intro as1
  induction as1 with
  | nil =>
      intro _ r0 h0 as2
      simp only [List.nil_append, callAfterCallbacks, h0, if_true]
      rw [h2 r0 h0]
      exact callAfterCallbacks_of_not_nullish as2 user ability args v h3
  | cons c rest ih =>
      intro h1 r0 h0 as2
      simp only [List.cons_append, callAfterCallbacks, h0, if_true]
      exact ih (fun hb hm => h1 hb (List.mem_cons_of_mem c hm))
        (c user ability r0 args) (h1 c (List.mem_cons_self c rest) r0 h0) as2

/-- Claim C1: before-hooks run in registration order and the first hook
returning a non-null/non-undefined value short-circuits the pipeline: no
later before-hook runs, the resolved ability callback (global or policy)
is never invoked (the outcome is independent of both), and that value
becomes the result of `raw`; in particular a before-hook returning `false`
makes `allows` false even when an allowing callback is registered. -/
theorem before_hooks_short_circuit
    (policies : List (JSClass × PolicyMap))
    (abilities abilities2 : List (String × AbilityCallback))
    (bs1 bs2 bs22 : List BeforeCallback) (b : BeforeCallback)
    (afters : List AfterCallback)
    (user : User) (ability : String) (args : List JSVal) (v : RawResult)
    (h1 : ∀ hb ∈ bs1, (hb user ability args).isNullish = true)
    (h2 : b user ability args = v) (h3 : v.isNullish = false) :
    GateService.raw ⟨policies, abilities, bs1 ++ b :: bs2, afters⟩ user ability args
      = (v, args)
    ∧ GateService.raw ⟨policies, abilities, bs1 ++ b :: bs2, afters⟩ user ability args
      = GateService.raw ⟨policies, abilities2, bs1 ++ b :: bs22, afters⟩ user ability args
    ∧ (v = .rbool false →
        (GateService.allows ⟨policies, abilities, bs1 ++ b :: bs2, afters⟩
          user [ability] args).1 = false) := by
  have hraw : ∀ (abilitiesx : List (String × AbilityCallback)) (bs2x : List BeforeCallback),
      GateService.raw ⟨policies, abilitiesx, bs1 ++ b :: bs2x, afters⟩ user ability args
        = (v, args) := by
    intro abilitiesx bs2x
    have hpre : callBeforeCallbacks (bs1 ++ b :: bs2x) user ability args = v := by
      rw [callBeforeCallbacks_append_nullish bs1 _ user ability args h1]
      simp [callBeforeCallbacks, h2, h3]
    simp only [GateService.raw, hpre, h3]
    simp [callAfterCallbacks_of_not_nullish afters user ability args v h3]
  refine ⟨hraw abilities bs2, by rw [hraw abilities bs2, hraw abilities2 bs22], ?_⟩
  intro hv
  subst hv
  simp [GateService.allows, GateService.check, GateService.inspect, hraw abilities bs2,
    RawResult.truthy, GateResponse.deny]

/-- Witness for C1: one nullish before-hook, then a hook returning `false`,
a later hook and an allowing ability callback that are both ignored. -/
theorem before_hooks_short_circuit_witness :
    ((fun (_ : User) (_ : String) (_ : List JSVal) => RawResult.rbool false)
        (Option.some 1) "edit" [] = RawResult.rbool false)
    ∧ (GateService.raw
        ⟨[], [("edit", fun _ _ => .rbool true)],
          [fun _ _ _ => .rnull,
           fun _ _ _ => .rbool false,
           fun _ _ _ => .rbool true],
          []⟩ (Option.some 1) "edit" [] = (.rbool false, []))
    ∧ (GateService.allows
        ⟨[], [("edit", fun _ _ => .rbool true)],
          [fun _ _ _ => .rnull,
           fun _ _ _ => .rbool false,
           fun _ _ _ => .rbool true],
          []⟩ (Option.some 1) ["edit"] []).1 = false := by
  have h := before_hooks_short_circuit
    [] [("edit", fun _ _ => .rbool true)] [("edit", fun _ _ => .rbool true)]
    [fun _ _ _ => .rnull] [fun _ _ _ => .rbool true] [fun _ _ _ => .rbool true]
    (fun _ _ _ => .rbool false) [] (Option.some 1) "edit" [] (.rbool false)
    (by intro hb hm; rw [List.mem_singleton] at hm; subst hm; rfl) rfl rfl
  exact ⟨rfl, h.1, h.2.2 rfl⟩

/-- Claim C2: an after-hook's body executes only while the accumulated
result is still null/undefined; the first after-hook returning a non-null
value fixes the result and subsequent after-hooks are ignored (the outcome
is independent of them); and when a non-null result already arrived from
the before-hooks or the ability callback, the after-hook pass returns it
untouched, whatever after-hooks are registered. -/
theorem after_hooks_first_non_null_wins
    (as1 as2 as22 : List AfterCallback) (a : AfterCallback)
    (user : User) (ability : String) (args : List JSVal) (r0 v : RawResult)
    (h0 : r0.isNullish = true)
    (h1 : ∀ hb ∈ as1, ∀ r : RawResult, r.isNullish = true →
      (hb user ability r args).isNullish = true)
    (h2 : ∀ r : RawResult, r.isNullish = true → a user ability r args = v)
    (h3 : v.isNullish = false) :
    callAfterCallbacks (as1 ++ a :: as2) user ability args r0 = v
    ∧ callAfterCallbacks (as1 ++ a :: as2) user ability args r0
      = callAfterCallbacks (as1 ++ a :: as22) user ability args r0
    ∧ (∀ (cbs : List AfterCallback) (r : RawResult), r.isNullish = false →
        callAfterCallbacks cbs user ability args r = r) := by
  have hk := callAfterCallbacks_append_coalesce a user ability args v h2 h3 as1 h1 r0 h0
  exact ⟨hk as2, by rw [hk as2, hk as22],
    fun cbs r hr => callAfterCallbacks_of_not_nullish cbs user ability args r hr⟩

/-- Witness for C2: a null primary outcome, a transparent logging hook,
then a hook granting `true`; a later denying hook is ignored, and a
non-null primary outcome passes through the whole list untouched. -/
theorem after_hooks_first_non_null_wins_witness :
    (RawResult.rnull.isNullish = true)
    ∧ callAfterCallbacks
        [fun _ _ r _ => r,
         fun _ _ _ _ => .rbool true,
         fun _ _ _ _ => .rbool false]
        (Option.some 1) "edit" [] .rnull = .rbool true
    ∧ callAfterCallbacks
        [fun _ _ r _ => r,
         fun _ _ _ _ => .rbool true,
         fun _ _ _ _ => .rbool false]
        (Option.some 1) "edit" [] (.rbool false) = .rbool false := by
  have h := after_hooks_first_non_null_wins
    [fun _ _ r _ => r] [fun _ _ _ _ => .rbool false] []
    (fun _ _ _ _ => .rbool true) (Option.some 1) "edit" [] .rnull (.rbool true)
    rfl
    (by
      intro hb hm r hr
      rw [List.mem_singleton] at hm
      subst hm
      exact hr)
    (fun r _ => rfl) rfl
  exact ⟨rfl, h.1, h.2.2 _ (.rbool false) rfl⟩

theorem callBeforeCallbacks_all_nullish (bs : List BeforeCallback)
    (user : User) (ability : String) (args : List JSVal)
    (h : ∀ hb ∈ bs, (hb user ability args).isNullish = true) :
    callBeforeCallbacks bs user ability args = .rnull := by
  have := callBeforeCallbacks_append_nullish bs [] user ability args h
  rwa [List.append_nil] at this

theorem callAfterCallbacks_all_rnull (cbs : List AfterCallback)
    (user : User) (ability : String) (args : List JSVal)
    (h : ∀ hb ∈ cbs, hb user ability .rnull args = .rnull) :
    callAfterCallbacks cbs user ability args .rnull = .rnull := by
  induction cbs with
  | nil => rfl
  | cons c rest ih =>
      simp only [callAfterCallbacks, RawResult.isNullish, if_true,
        h c (List.mem_cons_self c rest)]
      exact ih (fun hb hm => h hb (List.mem_cons_of_mem c hm))

/-- Claim C3: an ability with no registered global callback and no matching
policy method resolves through the default `() => null` callback: with every
before-hook and after-hook returning null, `raw` is null, `check` of the
single ability is false, and `inspect` coerces the null into a plain
denial — no error from the engine, which is a total function here. -/
theorem unresolvable_ability_denies
    (g : GateService) (user : User) (ability : String) (args : List JSVal)
    (hpol : policyResolution g ability args = Option.none)
    (hab : List.lookup ability g.abilities = Option.none)
    (hbefore : ∀ hb ∈ g.beforeCallbacks, hb user ability args = .rnull)
    (hafter : ∀ hb ∈ g.afterCallbacks, hb user ability .rnull args = .rnull) :
    g.raw user ability args = (.rnull, args)
    ∧ (g.check user [ability] args).1 = false
    ∧ g.inspect user ability args = (GateResponse.deny Option.none Option.none, args) := by
  have hpre : callBeforeCallbacks g.beforeCallbacks user ability args = .rnull :=
    callBeforeCallbacks_all_nullish g.beforeCallbacks user ability args
      (fun hb hm => by rw [hbefore hb hm]; rfl)
  have hauth : callAuthCallback g user ability args = (.rnull, args) := by
    unfold callAuthCallback resolveAuthCallback
    rw [hpol, hab]
  have hraw : g.raw user ability args = (.rnull, args) := by
    simp only [GateService.raw, hpre, RawResult.isNullish, if_true, hauth]
    rw [callAfterCallbacks_all_rnull g.afterCallbacks user ability args hafter]
  have hins : g.inspect user ability args
      = (GateResponse.deny Option.none Option.none, args) := by
    simp [GateService.inspect, hraw, RawResult.truthy]
  refine ⟨hraw, ?_, hins⟩
  simp [GateService.check, hins, GateResponse.deny]

/-- Witness for C3: a gate with a policy for an unrelated class, an
unrelated ability, one null before-hook and one null after-hook; checking
the unknown ability `fly` on an instance outside the registry. -/
theorem unresolvable_ability_denies_witness :
    (policyResolution
        ⟨[(⟨0, []⟩, ⟨[("fly", fun _ _ => .rbool true)], Option.none⟩)],
         [("walk", fun _ _ => .rbool true)],
         [fun _ _ _ => .rnull], [fun _ _ _ _ => .rnull]⟩
        "fly" [.vobj ⟨5, [3]⟩ 0] = Option.none)
    ∧ (GateService.raw
        ⟨[(⟨0, []⟩, ⟨[("fly", fun _ _ => .rbool true)], Option.none⟩)],
         [("walk", fun _ _ => .rbool true)],
         [fun _ _ _ => .rnull], [fun _ _ _ _ => .rnull]⟩
        (Option.some 1) "fly" [.vobj ⟨5, [3]⟩ 0]
          = (.rnull, [.vobj ⟨5, [3]⟩ 0]))
    ∧ (GateService.check
        ⟨[(⟨0, []⟩, ⟨[("fly", fun _ _ => .rbool true)], Option.none⟩)],
         [("walk", fun _ _ => .rbool true)],
         [fun _ _ _ => .rnull], [fun _ _ _ _ => .rnull]⟩
        (Option.some 1) ["fly"] [.vobj ⟨5, [3]⟩ 0]).1 = false := by
  have h := unresolvable_ability_denies
    ⟨[(⟨0, []⟩, ⟨[("fly", fun _ _ => .rbool true)], Option.none⟩)],
     [("walk", fun _ _ => .rbool true)],
     [fun _ _ _ => .rnull], [fun _ _ _ _ => .rnull]⟩
    (Option.some 1) "fly" [.vobj ⟨5, [3]⟩ 0]
    rfl rfl
    (by intro hb hm; rw [List.mem_singleton] at hm; subst hm; rfl)
    (by intro hb hm; rw [List.mem_singleton] at hm; subst hm; rfl)
  exact ⟨rfl, h.1, h.2.1⟩

/-- Claim C4: policy lookup is two-phase.  An entry registered for the
subject's exact type wins whatever comes earlier in the registry; with no
exact entry, the first registered pair whose type the subject's prototype
is an instance of wins; with neither, the lookup yields the false-like
sentinel (`Option.none` here) — and it is a total function, so it never
throws. -/
theorem policy_lookup_two_phase
    (subj : JSVal) (c : JSClass) (hsc : subjectClass subj = Option.some c) :
    (∀ (reg1 reg2 : List (JSClass × PolicyMap)) (t : JSClass) (p : PolicyMap),
      (∀ e ∈ reg1, (e.1.cid == c.cid) = false) → t.cid = c.cid →
      getPolicyFor (reg1 ++ (t, p) :: reg2) subj = Option.some p)
    ∧ (∀ (reg1 reg2 : List (JSClass × PolicyMap)) (t : JSClass) (p : PolicyMap),
      (∀ e ∈ reg1 ++ (t, p) :: reg2, (e.1.cid == c.cid) = false) →
      (∀ e ∈ reg1, protoInstanceOf subj e.1 = false) →
      protoInstanceOf subj t = true →
      getPolicyFor (reg1 ++ (t, p) :: reg2) subj = Option.some p)
    ∧ (∀ reg : List (JSClass × PolicyMap),
      (∀ e ∈ reg, (e.1.cid == c.cid) = false ∧ protoInstanceOf subj e.1 = false) →
      getPolicyFor reg subj = Option.none) := by
  refine ⟨?_, ?_, ?_⟩
  · intro reg1 reg2 t p hno ht
    have h1 : List.find? (fun e => e.1.cid == c.cid) reg1 = Option.none :=
      List.find?_eq_none.mpr (fun e he => by simp [hno e he])
    have hf : List.find? (fun e => e.1.cid == c.cid) ((t, p) :: reg2)
        = Option.some (t, p) :=
      List.find?_cons_of_pos _ (by simp [ht])
    simp only [getPolicyFor, hsc, List.find?_append, h1, Option.none_or, hf]
  · intro reg1 reg2 t p hno hanc ht
    have h1 : List.find? (fun e => e.1.cid == c.cid) (reg1 ++ (t, p) :: reg2)
        = Option.none :=
      List.find?_eq_none.mpr (fun e he => by simp [hno e he])
    have h2 : List.find? (fun e => protoInstanceOf subj e.1) reg1 = Option.none :=
      List.find?_eq_none.mpr (fun e he => by simp [hanc e he])
    have hf : List.find? (fun e => protoInstanceOf subj e.1) ((t, p) :: reg2)
        = Option.some (t, p) :=
      List.find?_cons_of_pos _ (by simp [ht])
    simp only [getPolicyFor, hsc, h1, List.find?_append, h2, Option.none_or, hf]
  · intro reg hno
    have h1 : List.find? (fun e => e.1.cid == c.cid) reg = Option.none :=
      List.find?_eq_none.mpr (fun e he => by simp [(hno e he).1])
    have h2 : List.find? (fun e => protoInstanceOf subj e.1) reg = Option.none :=
      List.find?_eq_none.mpr (fun e he => by simp [(hno e he).2])
    simp only [getPolicyFor, hsc, h1, h2]

/-- Witness for C4, with `Base` (cid 0) and `Derived` (cid 1, ancestor 0):
an exact `Derived` entry wins although the `Base` entry precedes it and
also matches by ancestry; a `Derived` instance with only a `Base` policy
registered resolves to the `Base` policy; an unrelated instance gets the
sentinel. -/
theorem policy_lookup_two_phase_witness :
    (subjectClass (.vobj ⟨1, [0]⟩ 7) = Option.some ⟨1, [0]⟩)
    ∧ getPolicyFor
        [(⟨0, []⟩, ⟨[], Option.none⟩),
         (⟨1, [0]⟩, ⟨[("edit", fun _ _ => .rbool true)], Option.none⟩)]
        (.vobj ⟨1, [0]⟩ 7)
        = Option.some ⟨[("edit", fun _ _ => .rbool true)], Option.none⟩
    ∧ getPolicyFor [(⟨0, []⟩, ⟨[], Option.none⟩)] (.vobj ⟨1, [0]⟩ 7)
        = Option.some ⟨[], Option.none⟩
    ∧ getPolicyFor [(⟨0, []⟩, ⟨[], Option.none⟩)] (.vobj ⟨9, [8]⟩ 7)
        = Option.none := by
  have hD := policy_lookup_two_phase (.vobj ⟨1, [0]⟩ 7) ⟨1, [0]⟩ rfl
  have hU := policy_lookup_two_phase (.vobj ⟨9, [8]⟩ 7) ⟨9, [8]⟩ rfl
  refine ⟨rfl, ?_, ?_, ?_⟩
  · exact hD.1 [(⟨0, []⟩, ⟨[], Option.none⟩)] []
      ⟨1, [0]⟩ ⟨[("edit", fun _ _ => .rbool true)], Option.none⟩
      (by intro e he; simp only [List.mem_singleton] at he; subst he; rfl) rfl
  · exact hD.2.1 [] [] ⟨0, []⟩ ⟨[], Option.none⟩
      (by intro e he; simp only [List.nil_append, List.mem_singleton] at he; subst he; rfl)
      (by intro e he; exact absurd he (List.not_mem_nil e)) rfl
  · exact hU.2.2 [(⟨0, []⟩, ⟨[], Option.none⟩)]
      (by intro e he; simp only [List.mem_singleton] at he; subst he; exact ⟨rfl, rfl⟩)

/-- Claim C5: when a policy's `before(principal, ability, ...args)` yields a
non-null/non-undefined value, that value is the outcome of the auth-callback
stage and the policy's ability method is never invoked (the outcome does not
depend on the method table, and the args array is not shifted); when
`before` is absent or yields null/undefined, the derived ability method runs
on the args with a leading class reference dropped. -/
theorem policy_before_short_circuits
    (methods methods2 : List (String × PolicyMethod)) (bf : PolicyBeforeMethod)
    (m : String) (user : User) (ability : String) (args : List JSVal) (v : RawResult)
    (h1 : bf user ability args = v) (h2 : v.isNullish = false) :
    invokePolicyCallback ⟨methods, Option.some bf⟩ m user ability args = (v, args)
    ∧ invokePolicyCallback ⟨methods, Option.some bf⟩ m user ability args
      = invokePolicyCallback ⟨methods2, Option.some bf⟩ m user ability args
    ∧ (∀ (policy : PolicyMap) (f : PolicyMethod),
        (callPolicyBefore policy user ability args).isNullish = true →
        List.lookup m policy.methods = Option.some f →
        invokePolicyCallback policy m user ability args
          = (f user (shiftClassArg args), shiftClassArg args))
    ∧ (∀ g : GateService,
        policyResolution g ability args
          = Option.some (⟨methods, Option.some bf⟩, m) →
        callAuthCallback g user ability args = (v, args)) := by
  have hmain : ∀ methodsx : List (String × PolicyMethod),
      invokePolicyCallback ⟨methodsx, Option.some bf⟩ m user ability args = (v, args) := by
    intro methodsx
    simp [invokePolicyCallback, callPolicyBefore, h1, h2]
  refine ⟨hmain methods, by rw [hmain methods, hmain methods2], ?_, ?_⟩
  · intro policy f hpre hlook
    simp [invokePolicyCallback, hpre, callPolicyMethod, hlook]
  · intro g hres
    unfold callAuthCallback resolveAuthCallback
    rw [hres]
    exact hmain methods

/-- Witness for C5: a policy whose `before` grants `true`; its `edit`
method (which would deny) is never called; the same policy without a
`before` runs the method, dropping the leading class reference. -/
theorem policy_before_short_circuits_witness :
    ((fun (_ : User) (_ : String) (_ : List JSVal) => RawResult.rbool true)
        (Option.some 1) "edit" [.vclass ⟨0, []⟩, .vnum 5] = RawResult.rbool true)
    ∧ invokePolicyCallback
        ⟨[("edit", fun _ _ => .rbool false)],
         Option.some (fun _ _ _ => .rbool true)⟩
        "edit" (Option.some 1) "edit" [.vclass ⟨0, []⟩, .vnum 5]
      = (.rbool true, [.vclass ⟨0, []⟩, .vnum 5])
    ∧ invokePolicyCallback
        ⟨[("edit", fun _ u => .rbool (u == [JSVal.vnum 5]))], Option.none⟩
        "edit" (Option.some 1) "edit" [.vclass ⟨0, []⟩, .vnum 5]
      = (.rbool true, [.vnum 5]) := by
  have h := policy_before_short_circuits
    [("edit", fun _ _ => .rbool false)] []
    (fun _ _ _ => .rbool true) "edit" (Option.some 1) "edit"
    [.vclass ⟨0, []⟩, .vnum 5] (.rbool true) rfl rfl
  refine ⟨rfl, h.1, ?_⟩
  have h3 := h.2.2.1 ⟨[("edit", fun _ u => .rbool (u == [JSVal.vnum 5]))], Option.none⟩
    (fun _ u => .rbool (u == [JSVal.vnum 5])) rfl rfl
  rw [h3]
  rfl

/-- Claim C6 (amended): `authorize` raises a denial signal exactly when the
outcome is denied; the signal carries the denying Result Value, and when a
nonzero status code was set on it (e.g. 404) it carries that status code;
when allowed, `authorize` returns the Result Value and raises nothing.  At
engine level `authorize` is `inspect` followed by the Result Value's own
`authorize`; every other query operation is a plain value-returning total
function. -/
theorem authorize_raises_iff_denied
    (g : GateService) (user : User) (ability : String) (args : List JSVal) :
    GateService.authorize g user ability args
      = ((GateService.inspect g user ability args).1.authorize,
         (GateService.inspect g user ability args).2)
    ∧ (∀ r : GateResponse, r.allowed = true → r.authorize = Except.ok r)
    ∧ (∀ r : GateResponse, r.allowed = false →
        ∃ sig : DenialSignal, r.authorize = Except.error sig
          ∧ sig.response = r
          ∧ (∀ n : Nat, r.status = Option.some n → n ≠ 0 → sig.statusCode = n)) := by
  refine ⟨rfl, ?_, ?_⟩
  · intro r h
    simp [GateResponse.authorize, GateResponse.denied, h]
  · intro r h
    have hd : r.denied = true := by simp [GateResponse.denied, h]
    cases hs : r.status with
    | none =>
        exact ⟨.forbiddenException r, by simp [GateResponse.authorize, hd, hs], rfl,
          fun n hn => by exact absurd hn (by simp)⟩
    | some s =>
        by_cases h0 : s = 0
        · subst h0
          refine ⟨.forbiddenException r, by simp [GateResponse.authorize, hd, hs], rfl, ?_⟩
          intro n hn hn0
          cases hn
          exact absurd rfl hn0
        · refine ⟨.httpException r s, ?_, rfl, ?_⟩
          · simp [GateResponse.authorize, hd, hs, h0]
          · intro n hn _
            cases hn
            rfl

/-- Counterexample to C6 as stated: on a denial whose status code was set
to 0 (the setter accepts any number), `authorize` raises the plain 403
forbidden signal, not a signal carrying the set status 0 — the source
selects the exception with `this._status ?`, JavaScript number truthiness. -/
theorem authorize_status_zero_counterexample :
    ((GateResponse.deny Option.none Option.none).withStatus (Option.some 0)).status
      = Option.some 0
    ∧ ((GateResponse.deny Option.none Option.none).withStatus (Option.some 0)).authorize
      = Except.error (DenialSignal.forbiddenException
          ((GateResponse.deny Option.none Option.none).withStatus (Option.some 0)))
    ∧ DenialSignal.statusCode (DenialSignal.forbiddenException
        ((GateResponse.deny Option.none Option.none).withStatus (Option.some 0)))
      = 403 := by
  exact ⟨rfl, rfl, rfl⟩

/-- Witness for C6: the spec scenario — a denied check whose Result Value
carries status 404 raises a signal whose carried status is 404. -/
theorem authorize_raises_iff_denied_witness :
    ((GateResponse.denyWithStatus 404 Option.none Option.none).allowed = false)
    ∧ (∃ sig : DenialSignal,
        (GateResponse.denyWithStatus 404 Option.none Option.none).authorize
          = Except.error sig
        ∧ sig.response = GateResponse.denyWithStatus 404 Option.none Option.none
        ∧ (∀ n : Nat,
            (GateResponse.denyWithStatus 404 Option.none Option.none).status
              = Option.some n → n ≠ 0 → sig.statusCode = n))
    ∧ GateService.authorize
        ⟨[], [("x", fun _ _ =>
            .rresp (GateResponse.denyWithStatus 404 Option.none Option.none))], [], []⟩
        (Option.some 1) "x" []
      = ((GateService.inspect
            ⟨[], [("x", fun _ _ =>
                .rresp (GateResponse.denyWithStatus 404 Option.none Option.none))], [], []⟩
            (Option.some 1) "x" []).1.authorize,
         (GateService.inspect
            ⟨[], [("x", fun _ _ =>
                .rresp (GateResponse.denyWithStatus 404 Option.none Option.none))], [], []⟩
            (Option.some 1) "x" []).2) := by
  have h := authorize_raises_iff_denied
    ⟨[], [("x", fun _ _ =>
        .rresp (GateResponse.denyWithStatus 404 Option.none Option.none))], [], []⟩
    (Option.some 1) "x" []
  exact ⟨rfl, h.2.2 (GateResponse.denyWithStatus 404 Option.none Option.none) rfl, h.1⟩

/-! ## Helper lemmas about the method-name derivation -/

theorem char_toNat_ofNat (n : Nat) (h : n.isValidChar) : (Char.ofNat n).toNat = n := by
  simp only [Char.ofNat, dif_pos h, Char.ofNatAux, Char.toNat]
  simp [UInt32.toNat, BitVec.toNat_ofNatLt]

theorem not_delim_of_letter_range (x : Char)
    (h : (65 ≤ x.toNat ∧ x.toNat ≤ 90) ∨ (97 ≤ x.toNat ∧ x.toNat ≤ 122)) :
    isDelimChar x = false := by
  by_contra hd
  rw [Bool.not_eq_false] at hd
  simp only [isDelimChar, Bool.or_eq_true, beq_iff_eq] at hd
  rcases hd with ((((((((h1|h1)|h1)|h1)|h1)|h1)|h1)|h1)|h1) <;> subst h1 <;>
    exact absurd h (by decide)

theorem isDelimChar_toLower (c : Char) :
    isDelimChar (Char.toLower c) = isDelimChar c := by
  simp only [Char.toLower]
  split
  case isTrue h =>
    have hub : isDelimChar c = false := not_delim_of_letter_range c (Or.inl h)
    have hv : (Char.ofNat (c.toNat + 32)).toNat = c.toNat + 32 := by
      apply char_toNat_ofNat
      left
      omega
    have h2 := not_delim_of_letter_range (Char.ofNat (c.toNat + 32)) (Or.inr (by omega))
    rw [h2, hub]
  case isFalse h => rfl

theorem splitDelimRuns_nodelim (l : List Char)
    (h : ∀ c ∈ l, isDelimChar c = false) : splitDelimRuns l = [l] := by
  induction l with
  | nil => rfl
  | cons c rest ih =>
      have hc := h c (List.mem_cons_self c rest)
      have ihr := ih (fun x hx => h x (List.mem_cons_of_mem c hx))
      simp [splitDelimRuns, hc, ihr]

theorem splitDelimRuns_append (a : List Char)
    (ha : ∀ c ∈ a, isDelimChar c = false) (d : Char) (hd : isDelimChar d = true)
    (rest : List Char) (hrest : ∀ x, rest.head? = Option.some x → isDelimChar x = false) :
    splitDelimRuns (a ++ d :: rest) = a :: splitDelimRuns rest := by
  induction a with
  | nil =>
      cases rest with
      | nil => simp [splitDelimRuns, hd]
      | cons x xs =>
          have hx := hrest x rfl
          simp [splitDelimRuns, hd, hx]
  | cons c a2 ih =>
      have hc := ha c (List.mem_cons_self c a2)
      have ih2 := ih (fun x hx => ha x (List.mem_cons_of_mem c hx))
      simp [splitDelimRuns, hc, ih2]

theorem string_join_two (A B : String) : String.join [A, B] = A ++ B := by
  apply String.ext
  simp [String.join, String.data_append]

theorem string_join_three (A B C : String) : String.join [A, B, C] = A ++ B ++ C := by
  apply String.ext
  simp [String.join, String.data_append]

/-- Claim C7: an ability name of the form `w1-w2` (delimiter-free words) is
lower-cased and rejoined camel-style — first word unchanged, second word
capitalized at its first character — while any name without a hyphen is
used verbatim as the method name (so `createPost` and even `publish_post`
map to themselves). -/
theorem format_ability_to_method_spec
    (w1 w2 : String)
    (h1 : ∀ c ∈ w1.data, isDelimChar c = false)
    (h2 : ∀ c ∈ w2.data, isDelimChar c = false) :
    formatAbilityToMethod (w1 ++ "-" ++ w2)
      = String.mk (w1.data.map Char.toLower)
        ++ capitalizeWord (String.mk (w2.data.map Char.toLower))
    ∧ (∀ s : String, s.data.contains '-' = false → formatAbilityToMethod s = s) := by
  constructor
  · have hA : ∀ c ∈ w1.data.map Char.toLower, isDelimChar c = false := by
      intro c hc
      rcases List.mem_map.mp hc with ⟨x, hx, hxe⟩
      subst hxe
      rw [isDelimChar_toLower]
      exact h1 x hx
    have hB : ∀ c ∈ w2.data.map Char.toLower, isDelimChar c = false := by
      intro c hc
      rcases List.mem_map.mp hc with ⟨x, hx, hxe⟩
      subst hxe
      rw [isDelimChar_toLower]
      exact h2 x hx
    have hdata : (w1 ++ "-" ++ w2).data = w1.data ++ '-' :: w2.data := by
      simp [String.data_append]
    have hcont : ((w1 ++ "-" ++ w2).data.contains '-') = true := by
      rw [hdata]
      simp
    have hmap : (w1.data ++ '-' :: w2.data).map Char.toLower
        = w1.data.map Char.toLower ++ '-' :: w2.data.map Char.toLower := by
      have : Char.toLower '-' = '-' := by decide
      simp [List.map_append, this]
    have hsplit : splitDelimRuns ((w1 ++ "-" ++ w2).data.map Char.toLower)
        = [w1.data.map Char.toLower, w2.data.map Char.toLower] := by
      rw [hdata, hmap,
        splitDelimRuns_append _ hA '-' (by decide) _
          (fun x hx => hB x (List.mem_of_mem_head? hx)),
        splitDelimRuns_nodelim _ hB]
    simp only [formatAbilityToMethod, hcont, if_true, hsplit, List.mapIdx_cons,
      List.mapIdx_nil]
    norm_num
    rw [string_join_two]
  · intro s hs
    unfold formatAbilityToMethod
    rw [hs]
    simp

/-- Witness for C7: `create-post` derives `createPost`; hyphen-free
`createPost` and `publish_post` are used verbatim. -/
theorem format_ability_to_method_spec_witness :
    (∀ c ∈ ("create" : String).data, isDelimChar c = false)
    ∧ formatAbilityToMethod "create-post" = "createPost"
    ∧ formatAbilityToMethod "createPost" = "createPost"
    ∧ formatAbilityToMethod "publish_post" = "publish_post" := by
  have h := format_ability_to_method_spec "create" "post" (by decide) (by decide)
  refine ⟨by decide, ?_, h.2 "createPost" (by decide), h.2 "publish_post" (by decide)⟩
  have e : ("create-post" : String) = "create" ++ "-" ++ "post" := by decide
  rw [e, h.1]
  decide

/-- Counterexample to C8 as stated: the fold is gated on the presence of a
hyphen (`ability.includes('-')`), so the purely whitespace-delimited name
`create post` is used verbatim, not folded to `createPost`. -/
theorem whitespace_without_hyphen_counterexample :
    formatAbilityToMethod "create post" = "create post"
    ∧ formatAbilityToMethod "create post" ≠ "createPost" := by
  exact ⟨by decide, by decide⟩

/-- Claim C8 (amended): whitespace-delimited words are folded into a single
camel-style token only when the name also contains a hyphen (whitespace
runs are delimiters of the split); a name without any hyphen — e.g. the
whitespace-only `create post` — is used verbatim. -/
theorem whitespace_folds_only_with_hyphen
    (w1 w2 w3 : String)
    (h1 : ∀ c ∈ w1.data, isDelimChar c = false)
    (h2 : ∀ c ∈ w2.data, isDelimChar c = false) (h2ne : w2 ≠ "")
    (h3 : ∀ c ∈ w3.data, isDelimChar c = false) :
    formatAbilityToMethod (w1 ++ " " ++ w2 ++ "-" ++ w3)
      = String.mk (w1.data.map Char.toLower)
        ++ capitalizeWord (String.mk (w2.data.map Char.toLower))
        ++ capitalizeWord (String.mk (w3.data.map Char.toLower))
    ∧ (∀ s : String, s.data.contains '-' = false → formatAbilityToMethod s = s) := by
  constructor
  · have hA : ∀ c ∈ w1.data.map Char.toLower, isDelimChar c = false := by
      intro c hc
      rcases List.mem_map.mp hc with ⟨x, hx, hxe⟩
      subst hxe
      rw [isDelimChar_toLower]
      exact h1 x hx
    have hB : ∀ c ∈ w2.data.map Char.toLower, isDelimChar c = false := by
      intro c hc
      rcases List.mem_map.mp hc with ⟨x, hx, hxe⟩
      subst hxe
      rw [isDelimChar_toLower]
      exact h2 x hx
    have hC : ∀ c ∈ w3.data.map Char.toLower, isDelimChar c = false := by
      intro c hc
      rcases List.mem_map.mp hc with ⟨x, hx, hxe⟩
      subst hxe
      rw [isDelimChar_toLower]
      exact h3 x hx
    have hdata : (w1 ++ " " ++ w2 ++ "-" ++ w3).data
        = w1.data ++ ' ' :: (w2.data ++ '-' :: w3.data) := by
      simp [String.data_append]
    have hcont : ((w1 ++ " " ++ w2 ++ "-" ++ w3).data.contains '-') = true := by
      rw [hdata]
      simp
    have hmap : (w1.data ++ ' ' :: (w2.data ++ '-' :: w3.data)).map Char.toLower
        = w1.data.map Char.toLower
          ++ ' ' :: (w2.data.map Char.toLower ++ '-' :: w3.data.map Char.toLower) := by
      have hsp : Char.toLower ' ' = ' ' := by decide
      have hhy : Char.toLower '-' = '-' := by decide
      simp [List.map_append, hsp, hhy]
    have hinner : splitDelimRuns
        (w2.data.map Char.toLower ++ '-' :: w3.data.map Char.toLower)
        = w2.data.map Char.toLower :: [w3.data.map Char.toLower] := by
      rw [splitDelimRuns_append _ hB '-' (by decide) _
          (fun x hx => hC x (List.mem_of_mem_head? hx)),
        splitDelimRuns_nodelim _ hC]
    have hhead : ∀ x, (w2.data.map Char.toLower ++ '-' :: w3.data.map Char.toLower).head?
        = Option.some x → isDelimChar x = false := by
      intro x hx
      cases hw2 : w2.data with
      | nil => exact absurd (String.ext hw2) h2ne
      | cons c cs =>
          rw [hw2] at hx
          simp only [List.map_cons, List.cons_append, List.head?_cons] at hx
          cases hx
          rw [isDelimChar_toLower]
          exact h2 c (by rw [hw2]; exact List.mem_cons_self c cs)
    have hsplit : splitDelimRuns ((w1 ++ " " ++ w2 ++ "-" ++ w3).data.map Char.toLower)
        = [w1.data.map Char.toLower, w2.data.map Char.toLower,
           w3.data.map Char.toLower] := by
      rw [hdata, hmap, splitDelimRuns_append _ hA ' ' (by decide) _ hhead, hinner]
    simp only [formatAbilityToMethod, hcont, if_true, hsplit, List.mapIdx_cons,
      List.mapIdx_nil]
    norm_num
    rw [string_join_three]
  · intro s hs
    unfold formatAbilityToMethod
    rw [hs]
    simp

/-- Witness for the amended C8: `create post-now` (whitespace and hyphen)
folds to `createPostNow`, while the verbatim branch is exercised on
`create post` elsewhere. -/
theorem whitespace_folds_only_with_hyphen_witness :
    (("post" : String) ≠ "")
    ∧ formatAbilityToMethod "create post-now" = "createPostNow"
    ∧ formatAbilityToMethod "go" = "go" := by
  have h := whitespace_folds_only_with_hyphen "create" "post" "now"
    (by decide) (by decide) (by decide) (by decide)
  refine ⟨by decide, ?_, h.2 "go" (by decide)⟩
  have e : ("create post-now" : String) = "create" ++ " " ++ "post" ++ "-" ++ "now" := by
    decide
  rw [e, h.1]
  decide

theorem inspect_snd (g : GateService) (user : User) (ability : String)
    (args : List JSVal) :
    (g.inspect user ability args).2 = (g.raw user ability args).2 := by
  simp only [GateService.inspect]
  rcases hx : (g.raw user ability args).1 with b | _ | _ | resp <;> simp [hx]

/-- Claim C10: when `args[0]` is a class reference resolved to a policy
with a callable derived method and the method is actually invoked (gate
before-hooks and the policy `before` all nullish), the call shifts the
class reference off the caller's args array in place: `raw` hands back the
shortened array, and in a shared-array `check` over two abilities the
second ability is evaluated on the shortened array. -/
theorem policy_class_call_shifts_shared_args
    (g : GateService) (user : User) (a1 a2 : String) (c : JSClass)
    (rest : List JSVal) (p : PolicyMap) (f : PolicyMethod)
    (hb : ∀ hb2 ∈ g.beforeCallbacks, (hb2 user a1 (.vclass c :: rest)).isNullish = true)
    (hpol : getPolicyFor g.policies (.vclass c) = Option.some p)
    (hm : List.lookup (formatAbilityToMethod a1) p.methods = Option.some f)
    (hpb : (callPolicyBefore p user a1 (.vclass c :: rest)).isNullish = true) :
    (GateService.raw g user a1 (.vclass c :: rest)).2 = rest
    ∧ (GateService.check g user [a1, a2] (.vclass c :: rest)).1
      = ((GateService.inspect g user a1 (.vclass c :: rest)).1.allowed
          && (GateService.inspect g user a2 rest).1.allowed) := by
  have hres : policyResolution g a1 (.vclass c :: rest)
      = Option.some (p, formatAbilityToMethod a1) := by
    simp [policyResolution, JSVal.truthy, hpol, resolvePolicyCallback, hm]
  have hauth : callAuthCallback g user a1 (.vclass c :: rest)
      = (f user rest, rest) := by
    unfold callAuthCallback resolveAuthCallback
    rw [hres]
    simp [invokePolicyCallback, hpb, callPolicyMethod, shiftClassArg, hm]
  have hpre : callBeforeCallbacks g.beforeCallbacks user a1 (.vclass c :: rest)
      = .rnull :=
    callBeforeCallbacks_all_nullish g.beforeCallbacks user a1 (.vclass c :: rest) hb
  have hraw : GateService.raw g user a1 (.vclass c :: rest)
      = (callAfterCallbacks g.afterCallbacks user a1 rest (f user rest), rest) := by
    simp only [GateService.raw, hpre, RawResult.isNullish, if_true, hauth]
  have hsnd : (GateService.raw g user a1 (.vclass c :: rest)).2 = rest := by
    rw [hraw]
  have hin2 : (g.inspect user a1 (.vclass c :: rest)).2 = rest := by
    rw [inspect_snd, hsnd]
  refine ⟨hsnd, ?_⟩
  show (let res := g.inspect user a1 (.vclass c :: rest);
    if res.1.allowed then g.check user [a2] res.2 else (false, res.2)).1 = _
  simp only [hin2]
  by_cases hA : (g.inspect user a1 (.vclass c :: rest)).1.allowed
  · simp only [hA, if_true, Bool.true_and]
    show (let res2 := g.inspect user a2 rest;
      if res2.1.allowed then g.check user [] res2.2 else (false, res2.2)).1 = _
    by_cases hA2 : (g.inspect user a2 rest).1.allowed
    · simp [hA2, GateService.check]
    · simp only [Bool.not_eq_true] at hA2
      simp [hA2]
  · simp only [Bool.not_eq_true] at hA
    simp [hA]

/-- Witness for C10: a `Doc` class policy whose `edit` method allows; a
shared args array `[Doc, 5]` is shortened to `[5]` by the first ability,
and the second ability (a global callback seeing the array) observes the
shortened array. -/
theorem policy_class_call_shifts_shared_args_witness :
    (getPolicyFor [(⟨0, []⟩, ⟨[("edit", fun _ _ => .rbool true)], Option.none⟩)]
        (.vclass ⟨0, []⟩)
      = Option.some ⟨[("edit", fun _ _ => .rbool true)], Option.none⟩)
    ∧ (GateService.raw
        ⟨[(⟨0, []⟩, ⟨[("edit", fun _ _ => .rbool true)], Option.none⟩)],
         [("peek", fun _ u => .rbool (u == [JSVal.vnum 5]))], [], []⟩
        (Option.some 1) "edit" [.vclass ⟨0, []⟩, .vnum 5]).2 = [.vnum 5]
    ∧ (GateService.check
        ⟨[(⟨0, []⟩, ⟨[("edit", fun _ _ => .rbool true)], Option.none⟩)],
         [("peek", fun _ u => .rbool (u == [JSVal.vnum 5]))], [], []⟩
        (Option.some 1) ["edit", "peek"] [.vclass ⟨0, []⟩, .vnum 5]).1 = true := by
  have h := policy_class_call_shifts_shared_args
    ⟨[(⟨0, []⟩, ⟨[("edit", fun _ _ => .rbool true)], Option.none⟩)],
     [("peek", fun _ u => .rbool (u == [JSVal.vnum 5]))], [], []⟩
    (Option.some 1) "edit" "peek" ⟨0, []⟩ [.vnum 5]
    ⟨[("edit", fun _ _ => .rbool true)], Option.none⟩
    (fun _ _ => .rbool true)
    (fun hb2 hm2 => absurd hm2 (List.not_mem_nil hb2))
    rfl rfl rfl
  refine ⟨rfl, h.1, ?_⟩
  rw [h.2]
  rfl
